import Mathlib

/-!
Verification of the naming, renaming, normalization and packaging logic of the
ytaudiodl pipeline (src/app.py and src/ytdlp.py).  Filenames are modelled as
`List Char`; every Python string operation used by the two scripts is embedded
as an executable Lean function.  Python regular-expression calls are embedded
as left-to-right scanners with exactly the semantics of the concrete patterns
appearing in the source.  The Unicode NFKD normalization performed by the
standard library in `sanitize_filename` is abstracted as a parameter
`nfkd : Char → List Char`; the only fact about it that any proof uses is that
NFKD is the identity on ASCII characters, which is stated as a hypothesis
where needed.
-/

set_option maxRecDepth 400000

/-- Python whitespace on the ASCII range: the characters matched by the regex
class backslash-s and stripped by str.strip (codes 9-13, 28-31 and 32). -/
def pyIsSpace (c : Char) : Bool :=
  c.toNat == 32 || (9 ≤ c.toNat && c.toNat ≤ 13) || (28 ≤ c.toNat && c.toNat ≤ 31)

/-- ASCII letters and digits. -/
def isAsciiAlnum (c : Char) : Bool :=
  (48 ≤ c.toNat && c.toNat ≤ 57) || (65 ≤ c.toNat && c.toNat ≤ 90)
    || (97 ≤ c.toNat && c.toNat ≤ 122)

/-- The regex class backslash-w restricted to ASCII (the only characters that
reach it in `sanitize_filename`, because the ascii-ignore encode runs first):
letters, digits and the underscore. -/
def isWordCh (c : Char) : Bool :=
  isAsciiAlnum c || c.toNat == 95

/-- A character kept by the first substitution of `sanitize_filename`
(pattern: anything not word, whitespace, period or dash is deleted). -/
def keepCh (c : Char) : Bool :=
  isWordCh c || pyIsSpace c || c.toNat == 46 || c.toNat == 45

/-- Python str.replace with a non-empty pattern: scan left to right, replace
non-overlapping occurrences, never rescan the replacement.  Fueled so that the
definition is structurally recursive and kernel-reducible; the fuel is the
length of the subject string, which suffices because every step consumes at
least one character.  (With an empty pattern the scripts never call replace.) -/
def listReplaceF (pat rep : List Char) : Nat → List Char → List Char
  | 0, s => s
  | _ + 1, [] => []
  | fuel + 1, c :: rest =>
    if pat ≠ [] ∧ pat.isPrefixOf (c :: rest) then
      rep ++ listReplaceF pat rep fuel ((c :: rest).drop pat.length)
    else
      c :: listReplaceF pat rep fuel rest

/-- Python str.replace(pat, rep) on s. -/
def listReplace (pat rep s : List Char) : List Char :=
  listReplaceF pat rep s.length s

/-- Decimal digit character for a value below ten (code 48 + d). -/
def digitCh (d : Nat) : Char :=
  Char.ofNat (48 + d)

/-- Decimal rendering of a natural number, fueled structurally. -/
def natDecF : Nat → Nat → List Char
  | 0, _ => []
  | fuel + 1, n =>
    if n < 10 then [digitCh n] else natDecF fuel (n / 10) ++ [digitCh (n % 10)]

/-- Decimal rendering of a natural number (Python str(n) for n ≥ 0). -/
def natDec (n : Nat) : List Char :=
  natDecF (n + 1) n

/-- Python int() applied to a string of decimal digits. -/
def digitsVal (ds : List Char) : Nat :=
  ds.foldl (fun a c => 10 * a + (c.toNat - 48)) 0

/-- The two-digit zero-filled rendering used by both renamers for the chapter
index: width two, zero fill, values of three or more digits pass through. -/
def pad2 (n : Nat) : List Char :=
  if n < 10 then '0' :: natDec n else natDec n

/-- app.py line 138: the substitution that rewrites a dash, exactly three
digits, dash into space dash space, the two-digit rendering of the value, and
a dash.  The scanner moves one character on failure and resumes after the
whole match on success, exactly like re.sub. -/
def appPadSubF : Nat → List Char → List Char
  | 0, s => s
  | _ + 1, [] => []
  | fuel + 1, s =>
    match s with
    | '-' :: a :: b :: c :: '-' :: rest =>
      if a.isDigit && b.isDigit && c.isDigit then
        ' ' :: '-' :: ' ' :: (pad2 (digitsVal [a, b, c]) ++ '-' :: appPadSubF fuel rest)
      else
        '-' :: appPadSubF fuel (a :: b :: c :: '-' :: rest)
    | c :: rest => c :: appPadSubF fuel rest
    | [] => []

/-- app.py line 138 as a total function on names. -/
def appPadSub (s : List Char) : List Char :=
  appPadSubF s.length s

/-- ytdlp.py line 131: re.search for space dash space followed by a maximal
run of digits; returns the digit run of the first match. -/
def ytdlpFindNumF : Nat → List Char → Option (List Char)
  | 0, _ => none
  | _ + 1, [] => none
  | fuel + 1, s =>
    match s with
    | ' ' :: '-' :: ' ' :: c :: r2 =>
      if c.isDigit then some (c :: r2.takeWhile Char.isDigit)
      else ytdlpFindNumF fuel ('-' :: ' ' :: c :: r2)
    | _ :: rest => ytdlpFindNumF fuel rest
    | [] => none

/-- First chapter-index match of a name, per ytdlp.py line 131. -/
def ytdlpFindNum (s : List Char) : Option (List Char) :=
  ytdlpFindNumF s.length s

/-- app.py lines 130-138: the clean destination name of one raw chapter file.
Order as in the source: delete every occurrence of dash, bracket, video id,
bracket; replace underscores with spaces; then apply the index substitution. -/
def appCleanName (vid name : List Char) : List Char :=
  appPadSub
    (listReplace [ '_' ] [ ' ' ]
      (listReplace ('-' :: '[' :: (vid ++ [ ']' ])) [] name))

/-- ytdlp.py line 54 first part: re.sub replacing each maximal whitespace run
by a single space.  Structural: an as-pattern keeps the recursion on the tail. -/
def collapseWS : List Char → List Char
  | [] => []
  | a :: t =>
    match t with
    | [] => if pyIsSpace a then [' '] else [a]
    | b :: _ =>
      if pyIsSpace a && pyIsSpace b then collapseWS t
      else (if pyIsSpace a then ' ' else a) :: collapseWS t

/-- Removal of trailing whitespace (the right half of str.strip). -/
def rstripWS : List Char → List Char
  | [] => []
  | a :: t =>
    match rstripWS t with
    | [] => if pyIsSpace a then [] else [a]
    | r => a :: r

/-- Python str.strip(): drop leading and trailing whitespace. -/
def pyStrip (s : List Char) : List Char :=
  rstripWS (s.dropWhile pyIsSpace)

/-- ytdlp.py lines 47-55, `sanitize_filename`: NFKD-normalize (the parameter
`nfkd` stands for the standard library routine), encode ascii with errors
ignored (the filter on code points below 128), delete every character that is
not word, whitespace, period or dash, collapse whitespace runs to single
spaces, and strip. -/
def sanitize_filename (nfkd : Char → List Char) (s : List Char) : List Char :=
  pyStrip (collapseWS
    (List.filter keepCh
      (List.filter (fun c => decide (c.toNat < 128)) (s.flatMap nfkd))))

/-- The identity embedding of characters, a stand-in for NFKD that is correct
on every character having no compatibility decomposition (all of ASCII in
particular). -/
def nfkdId : Char → List Char := fun c => [c]

/-- ytdlp.py lines 130-138: the clean destination name of one raw chapter
file.  When a chapter index is found: strip the name, replace every
occurrence of space dash space index by its two-digit rendering, delete the
space-prefixed bracketed video id, and sanitize.  Otherwise only the id
removal and sanitizing happen. -/
def ytdlpCleanName (nfkd : Char → List Char) (vid name : List Char) : List Char :=
  match ytdlpFindNum name with
  | some num =>
    sanitize_filename nfkd
      (listReplace (' ' :: '[' :: (vid ++ [ ']' ])) []
        (listReplace ((' ' :: '-' :: ' ' :: []) ++ num)
          ((' ' :: '-' :: ' ' :: []) ++ pad2 (digitsVal num))
          (pyStrip name)))
  | none =>
    sanitize_filename nfkd
      (listReplace (' ' :: '[' :: (vid ++ [ ']' ])) [] name)

/-- Strict lexicographic order on names by code point, the order Python's
sorted() uses for the path objects of one directory. -/
def lexLt : List Char → List Char → Bool
  | [], [] => false
  | [], _ :: _ => true
  | _ :: _, [] => false
  | a :: as, b :: bs =>
    if a.toNat < b.toNat then true
    else if b.toNat < a.toNat then false
    else lexLt as bs

/-- A directory entry: a file name and an abstract content tag. -/
abbrev FileEntry := List Char × Nat

/-- Ordered insertion used by `sortNames`. -/
def insertByName (e : FileEntry) : List FileEntry → List FileEntry
  | [] => [e]
  | f :: t => if lexLt f.1 e.1 then f :: insertByName e t else e :: f :: t

/-- Python sorted() on the names of one directory. -/
def sortNames (l : List FileEntry) : List FileEntry :=
  l.foldr insertByName []

/-- Python list.remove: delete the first entry carrying the given name. -/
def removeFirstName : List FileEntry → List Char → List FileEntry
  | [], _ => []
  | e :: t, n => if e.1 = n then t else e :: removeFirstName t n

/-- The index of the last period of a name, if any (Python str.rfind). -/
def findLastDot (name : List Char) : Option Nat :=
  (List.range name.length).foldl
    (fun acc i => if name.getD i ' ' = '.' then some i else acc) none

/-- pathlib Path.stem: the name with its final suffix removed; a suffix needs
a period that is neither the first nor the last character. -/
def pathStem (name : List Char) : List Char :=
  match findLastDot name with
  | some i => if 0 < i ∧ i < name.length - 1 then name.take i else name
  | none => name

/-- shutil.move of `src` onto `dst` inside one directory: the entry named
`src` disappears, its content reappears under `dst`, silently replacing any
file already named `dst` (POSIX rename semantics).  If no entry is named
`src` the directory is returned unchanged (Python would raise; the pipeline
never reaches that case because the moved names come from a directory
listing). -/
def moveFile (d : List FileEntry) (src dst : List Char) : List FileEntry :=
  match d.find? (fun e => e.1 == src) with
  | none => d
  | some e => (d.filter (fun g => !(g.1 == src) && !(g.1 == dst))) ++ [(dst, e.2)]

/-- app.py lines 131-142: the rename loop, moving each raw chapter file to
its clean name inside the same directory. -/
def appRenameAll (vid : List Char) (d : List FileEntry) : List (List Char) → List FileEntry
  | [] => d
  | r :: rs => appRenameAll vid (moveFile d r (appCleanName vid r)) rs

/-- The selection of apply_replaygain, glob("*.mp3"): names ending in .mp3,
excluding hidden names, which a pattern starting with a star never matches. -/
def mp3Glob (name : List Char) : Bool :=
  (( ".mp3").toList.isSuffixOf name) && !(( ".").toList.isPrefixOf name)

/-- Outcome of app.py's apply_replaygain (lines 152-169): either the
no-files warning, or one status per selected file, true meaning mp3gain
exited zero.  No failure aborts the loop. -/
inductive RGOut where
  | warning
  | report (rs : List (List Char × Bool))
deriving DecidableEq

/-- app.py lines 152-169: run mp3gain over every .mp3 file of the directory,
logging a per-file error on non-zero exit and continuing. -/
def app_apply_replaygain (rc : List Char → Nat) (files : List FileEntry) : RGOut :=
  let final := files.filter (fun f => mp3Glob f.1)
  if final.isEmpty then .warning
  else .report (final.map (fun f => (f.1, rc f.1 = 0)))

/-- The mp3gain loop of ytdlp.py lines 171-200: returns the names attempted
in order together with the name whose non-zero exit raised
CalledProcessError, if any; files after the raise are never attempted. -/
def ytdlpRGRun (rc : List Char → Nat) : List FileEntry → List (List Char) × Option (List Char)
  | [] => ([], none)
  | f :: rest =>
    if rc f.1 = 0 then
      let r := ytdlpRGRun rc rest
      (f.1 :: r.1, r.2)
    else ([f.1], some f.1)

/-- Outcome of ytdlp.py's apply_replaygain (lines 159-200): warning when no
.mp3 is found, otherwise the attempted names, and the raising file when a
mp3gain invocation exited non-zero (the exception propagates out of
process_video). -/
inductive YRG where
  | warning
  | finished (attempted : List (List Char))
  | raised (attempted : List (List Char)) (failedOn : List Char)
deriving DecidableEq

/-- ytdlp.py lines 159-200. -/
def ytdlp_apply_replaygain (rc : List Char → Nat) (files : List FileEntry) : YRG :=
  let final := files.filter (fun f => mp3Glob f.1)
  if final.isEmpty then .warning
  else
    match ytdlpRGRun rc final with
    | (att, none) => .finished att
    | (att, some f) => .raised att f

/-- The observable surroundings of one app.py process_video run, frozen after
the metadata step: the exit codes of the external tools, the state of the
marker file fname.txt, and the contents of the directory the downloaded file
landed in. -/
structure AppEnv where
  metaRc : Nat
  rc : Nat
  markerExists : Bool
  markerReadOk : Bool
  markerName : List Char
  workDirName : List Char
  videoId : List Char
  dirFiles : List FileEntry
  mp3gainRc : List Char → Nat

/-- What one app.py process_video run did: whether the working directory was
returned (the function returns None on the early exits and always the parent
directory otherwise), the final directory contents, and the replaygain
outcome when that step was reached. -/
structure AppRun where
  retDir : Bool
  dir : List FileEntry
  rg : Option RGOut
deriving DecidableEq

/-- app.py lines 104-149: the body of process_video after the download
subprocess returned.  Early return on a non-zero exit, a missing marker file,
or an unreadable marker file (the read is wrapped in try/except, so no
exception escapes).  Otherwise: glob the stem of the marker-named file,
unconditionally delete that file when present and drop it from the glob list,
rename every remaining match to its clean name, run replaygain on the
directory, and return the directory.  The steps are split into named
definitions; `app_process_video_post` composes them.  This first one is
app.py line 124: glob of the marker-named file's stem, sorted. -/
def appGlobbed (env : AppEnv) : List FileEntry :=
  sortNames (env.dirFiles.filter
    (fun e => (pathStem env.markerName).isPrefixOf e.1))

/-- app.py line 125: does the marker-named file exist. -/
def appHasMain (env : AppEnv) : Bool :=
  env.dirFiles.any (fun e => e.1 == env.markerName)

/-- app.py line 126: the directory after the unconditional unlink of the
marker-named file (when it exists). -/
def appDir1 (env : AppEnv) : List FileEntry :=
  if appHasMain env then env.dirFiles.filter (fun e => !(e.1 == env.markerName))
  else env.dirFiles

/-- app.py line 127: the chapter list after list.remove of the marker-named
file (when it existed). -/
def appChaps (env : AppEnv) : List (List Char) :=
  (if appHasMain env then removeFirstName (appGlobbed env) env.markerName
   else appGlobbed env).map Prod.fst

/-- The directory after app.py's rename loop. -/
def appDir2 (env : AppEnv) : List FileEntry :=
  appRenameAll env.videoId (appDir1 env) (appChaps env)

def app_process_video_post (env : AppEnv) : AppRun :=
  if env.rc ≠ 0 then ⟨false, env.dirFiles, none⟩
  else if !env.markerExists then ⟨false, env.dirFiles, none⟩
  else if !env.markerReadOk then ⟨false, env.dirFiles, none⟩
  else ⟨true, appDir2 env, some (app_apply_replaygain env.mp3gainRc (appDir2 env))⟩

/-- What app.py's Streamlit main (lines 192-223) shows the user: the served
artifact (process_video returns the working directory on success, so the
served artifact is always the zip of that directory), nothing at all when
process_video returned None, or the error box when an exception reached the
try/except (only the metadata step raises in the modelled fragment). -/
inductive UIOutcome where
  | served (zipName : List Char) (entries : List FileEntry)
  | silent
  | errorBox
deriving DecidableEq

/-- app.py main, lines 192-223, composed with process_video. -/
def app_main_outcome (env : AppEnv) : UIOutcome :=
  if env.metaRc ≠ 0 then .errorBox
  else
    let run := app_process_video_post env
    if run.retDir then .served (env.workDirName ++ ( ".zip").toList) run.dir
    else .silent

/-- ytdlp.py line 124: does a name of the current working directory match the
glob pattern title, space dash space, star, dot mp3. -/
def chapterMatch (title name : List Char) : Bool :=
  ((title ++ ( " - ").toList).isPrefixOf name)
    && (( ".mp3").toList.isSuffixOf name)
    && decide (title.length + 7 ≤ name.length)

/-- shutil.move of a file from the current working directory into the working
directory of ytdlp.py's rename loop, again with silent replacement. -/
def moveAcross (cwd workdir : List FileEntry) (src dst : List Char) :
    List FileEntry × List FileEntry :=
  match cwd.find? (fun e => e.1 == src) with
  | none => (cwd, workdir)
  | some e =>
    (cwd.filter (fun g => !(g.1 == src)),
      (workdir.filter (fun g => !(g.1 == dst))) ++ [(dst, e.2)])

/-- The surroundings of one ytdlp.py process_video run after the download:
the sanitized title, the video id, the files of the current working directory
(where the chapter glob looks) and of the title-named working directory, and
the mp3gain exit codes. -/
structure YtEnv where
  title : List Char
  vid : List Char
  cwd : List FileEntry
  workdir : List FileEntry
  mp3gainRc : List Char → Nat

/-- What one ytdlp.py process_video run did: the replaygain outcome (a raise
there propagates, so the function only returns a path when no raise
happened), whether the returned artifact is the directory or the single
file path inside it, and the final states of both directories. -/
structure YtRun where
  rg : YRG
  isDirResult : Bool
  resultPath : List Char
  cwd : List FileEntry
  workdir : List FileEntry
deriving DecidableEq

/-- ytdlp.py lines 123-156: glob the current directory for chapter files; if
any match, rename and move each into the working directory and then delete
the main title-named file; always run replaygain on the working directory;
return the directory when chapters existed, the single file path otherwise. -/
def ytdlp_process_video_post (nfkd : Char → List Char) (env : YtEnv) : YtRun :=
  let chaps := env.cwd.filter (fun f => chapterMatch env.title f.1)
  let mainName := env.title ++ ( ".mp3").toList
  let st :=
    if chaps.isEmpty then (env.cwd, env.workdir)
    else
      let moved := chaps.foldl
        (fun st f => moveAcross st.1 st.2 f.1 (ytdlpCleanName nfkd env.vid f.1))
        (env.cwd, env.workdir)
      (moved.1,
        if moved.2.any (fun e => e.1 == mainName) then
          moved.2.filter (fun e => !(e.1 == mainName))
        else moved.2)
  let rg := ytdlp_apply_replaygain env.mp3gainRc st.2
  ⟨rg, !chaps.isEmpty,
    if chaps.isEmpty then env.title ++ ( "/").toList ++ mainName else env.title,
    st.1, st.2⟩

/-- A node of the working directory tree handed to create_zip_file: a file
with an abstract content tag, or a subdirectory. -/
inductive FSNode where
  | file (name : List Char) (content : Nat)
  | dir (name : List Char) (children : List FSNode)

/-- One archive entry: the path components relative to the archived
directory, and whether the entry is a directory. -/
abbrev ZEntry := List (List Char) × Bool

/-- Prefix every relative path of a recursive listing with the directory name
it was found under. -/
def prefixEntries (n : List Char) (es : List ZEntry) : List ZEntry :=
  es.map (fun e => (n :: e.1, e.2))

mutual

/-- Path.rglob("*") on one node: the node itself and, below a directory, all
its descendants with relative paths. -/
def rglobNode : FSNode → List ZEntry
  | .file n _ => [([n], false)]
  | .dir n cs => ([n], true) :: prefixEntries n (rglobList cs)

/-- Path.rglob("*") on the children of a directory. -/
def rglobList : List FSNode → List ZEntry
  | [] => []
  | c :: cs => rglobNode c ++ rglobList cs

end

/-- The argument of create_zip_file: a directory (the usual call from main)
or a plain file (the else branch of the source). -/
inductive ZipTarget where
  | dirT (name : List Char) (children : List FSNode)
  | fileT (name : List Char)

/-- app.py lines 172-181, create_zip_file: the archive is named by appending
.zip to the target path; a directory target contributes one entry per
rglob("*") result, written under its path relative to the target; a file
target contributes itself under its bare name.  Nothing is deleted and an
empty directory yields an archive with no entries. -/
def create_zip_file : ZipTarget → List Char × List ZEntry
  | .dirT name children => (name ++ ( ".zip").toList, rglobList children)
  | .fileT name => (name ++ ( ".zip").toList, [([name], false)])

/-- Verification predicate (not from the source): every whitespace character
of the list is a plain space, and no whitespace character is immediately
followed by another.  This characterizes the strings on which the whitespace
collapse of `sanitize_filename` is the identity. -/
def spacesOK : List Char → Bool
  | [] => true
  | a :: t =>
    match t with
    | [] => !pyIsSpace a || a == ' '
    | b :: _ => (!pyIsSpace a || (a == ' ' && !pyIsSpace b)) && spacesOK t

/-- Verification helper (not from the source): does `pat` occur as a
contiguous substring of the list. -/
def containsSub (pat : List Char) : List Char → Bool
  | [] => pat.isEmpty
  | c :: t => pat.isPrefixOf (c :: t) || containsSub pat t

/-- Concrete app.py environment of a run in which yt-dlp produced no chapter
files: the marker names T.mp3 and the directory holds only that file. -/
def envSingle : AppEnv :=
  ⟨0, 0, true, true, ( "T.mp3").toList, ( "T").toList, ( "id").toList,
    [(( "T.mp3").toList, 0)], fun _ => 0⟩

/-- Concrete app.py environment with two raw chapter files whose embedded
indices both render to 01, so both map to the clean name T - 01-A.mp3. -/
def envCollide : AppEnv :=
  ⟨0, 0, true, true, ( "T.mp3").toList, ( "T").toList, ( "id").toList,
    [(( "T.mp3").toList, 0), (( "T-001-A-[id].mp3").toList, 1),
      (( "T_-_01-A-[id].mp3").toList, 2)], fun _ => 0⟩

/-- Concrete app.py environment in which the download subprocess exited with
code 1. -/
def envFail : AppEnv :=
  ⟨0, 1, true, true, ( "T.mp3").toList, ( "T").toList, ( "id").toList,
    [(( "T.mp3").toList, 0)], fun _ => 0⟩

/-- Concrete app.py environment of a run whose selected audio format was aac:
the downloaded file carries the .aac extension. -/
def envAac : AppEnv :=
  ⟨0, 0, true, true, ( "T.aac").toList, ( "T").toList, ( "id").toList,
    [(( "T.aac").toList, 0)], fun _ => 0⟩

/-- Concrete ytdlp.py environment of a chapterless run: nothing in the
current working directory matches the chapter glob, and the working directory
holds the single downloaded file. -/
def yenvSingle : YtEnv :=
  ⟨( "T").toList, ( "id").toList, [(( "other.txt").toList, 5)],
    [(( "T.mp3").toList, 0)], fun _ => 0⟩

theorem spacesOK_singleton (a : Char) :
    spacesOK [a] = (!pyIsSpace a || a == ' ') := rfl

theorem spacesOK_cons2 (a b : Char) (t : List Char) :
    spacesOK (a :: b :: t)
      = ((!pyIsSpace a || (a == ' ' && !pyIsSpace b)) && spacesOK (b :: t)) := rfl

theorem collapseWS_singleton (a : Char) :
    collapseWS [a] = if pyIsSpace a then [' '] else [a] := rfl

theorem collapseWS_cons2 (a b : Char) (t : List Char) :
    collapseWS (a :: b :: t)
      = if pyIsSpace a && pyIsSpace b then collapseWS (b :: t)
        else (if pyIsSpace a then ' ' else a) :: collapseWS (b :: t) := rfl

theorem spacesOK_tail {a : Char} {t : List Char} (h : spacesOK (a :: t) = true) :
    spacesOK t = true := by
  cases t with
  | nil => rfl
  | cons b u =>
    rw [spacesOK_cons2, Bool.and_eq_true] at h
    exact h.2

theorem spacesOK_head_weak {a : Char} {t : List Char} (h : spacesOK (a :: t) = true) :
    (!pyIsSpace a || a == ' ') = true := by
  cases t with
  | nil => rw [spacesOK_singleton] at h; exact h
  | cons b u =>
    rw [spacesOK_cons2, Bool.and_eq_true] at h
    have h1 := h.1
    cases hsa : pyIsSpace a with
    | false => simp [hsa]
    | true =>
      simp only [hsa, Bool.not_true, Bool.false_or, Bool.and_eq_true] at h1
      simp [h1.1]

theorem collapseWS_cons_nonspace (b : Char) (t : List Char) (hb : pyIsSpace b = false) :
    ∃ u, collapseWS (b :: t) = b :: u := by
  cases t with
  | nil => exact ⟨[], by rw [collapseWS_singleton, if_neg (by simp [hb])]⟩
  | cons c u =>
    refine ⟨collapseWS (c :: u), ?_⟩
    rw [collapseWS_cons2, if_neg (by simp [hb]), if_neg (by simp [hb])]

theorem spacesOK_cons_nonspace {a : Char} {x : List Char}
    (ha : pyIsSpace a = false) (hx : spacesOK x = true) : spacesOK (a :: x) = true := by
  cases x with
  | nil => rw [spacesOK_singleton]; simp [ha]
  | cons b u => rw [spacesOK_cons2]; simp [ha, hx]

theorem spacesOK_collapseWS (l : List Char) : spacesOK (collapseWS l) = true := by
  induction l with
  | nil => rfl
  | cons a t ih =>
    cases t with
    | nil =>
      rw [collapseWS_singleton]
      cases hsp : pyIsSpace a with
      | true => rw [if_pos rfl]; decide
      | false => rw [if_neg (by simp)]; rw [spacesOK_singleton]; simp [hsp]
    | cons b u =>
      rw [collapseWS_cons2]
      by_cases hab : (pyIsSpace a && pyIsSpace b) = true
      · rw [if_pos hab]; exact ih
      · rw [if_neg hab]
        cases hsa : pyIsSpace a with
        | false =>
          rw [if_neg (by simp [hsa])]
          exact spacesOK_cons_nonspace hsa ih
        | true =>
          have hsb : pyIsSpace b = false := by
            cases hsb : pyIsSpace b with
            | false => rfl
            | true => exact absurd (by rw [hsa, hsb]; rfl) hab
          rw [if_pos (by simp [hsa])]
          obtain ⟨v, hv⟩ := collapseWS_cons_nonspace b u hsb
          rw [hv]
          have ih2 : spacesOK (b :: v) = true := hv ▸ ih
          rw [spacesOK_cons2]
          have hspq : pyIsSpace ' ' = true := by decide
          simp [hsb, ih2, hspq]

theorem collapseWS_id_of_spacesOK {l : List Char} (h : spacesOK l = true) :
    collapseWS l = l := by
  induction l with
  | nil => rfl
  | cons a t ih =>
    cases t with
    | nil =>
      rw [collapseWS_singleton]
      rw [spacesOK_singleton] at h
      cases hsa : pyIsSpace a with
      | false => rw [if_neg (by simp [hsa])]
      | true =>
        rw [if_pos (by simp [hsa])]
        simp only [hsa, Bool.not_true, Bool.false_or, beq_iff_eq] at h
        rw [h]
    | cons b u =>
      rw [spacesOK_cons2, Bool.and_eq_true] at h
      obtain ⟨h1, h2⟩ := h
      rw [collapseWS_cons2]
      cases hsa : pyIsSpace a with
      | false =>
        rw [if_neg (by simp [hsa]), if_neg (by simp [hsa]), ih h2]
      | true =>
        simp only [hsa, Bool.not_true, Bool.false_or, Bool.and_eq_true, beq_iff_eq] at h1
        obtain ⟨ha', hb⟩ := h1
        have hsb : pyIsSpace b = false := by
          cases hsbb : pyIsSpace b with
          | false => rfl
          | true => rw [hsbb] at hb; simp at hb
        rw [if_neg (by simp [hsb]), if_pos (by simp [hsa]), ih h2, ha']

theorem rstripWS_cons_of_nil {a : Char} {t : List Char} (h : rstripWS t = []) :
    rstripWS (a :: t) = if pyIsSpace a then [] else [a] := by
  unfold rstripWS
  rw [h]

theorem rstripWS_cons_of_ne {a : Char} {t r : List Char} (h : rstripWS t = r)
    (hr : r ≠ []) : rstripWS (a :: t) = a :: r := by
  unfold rstripWS
  rw [h]
  cases r with
  | nil => exact absurd rfl hr
  | cons c u => rfl

theorem rstripWS_shape (a : Char) (t : List Char) :
    rstripWS (a :: t) = [] ∨ ∃ u, rstripWS (a :: t) = a :: u := by
  cases hr : rstripWS t with
  | nil =>
    rw [rstripWS_cons_of_nil hr]
    cases hsa : pyIsSpace a with
    | true => exact Or.inl (by rw [if_pos rfl])
    | false => exact Or.inr ⟨[], by rw [if_neg (by simp [hsa])]⟩
  | cons c u =>
    exact Or.inr ⟨c :: u, rstripWS_cons_of_ne hr (by simp)⟩

theorem mem_rstripWS_sub {c : Char} {l : List Char} (h : c ∈ rstripWS l) : c ∈ l := by
  induction l with
  | nil => simp [rstripWS] at h
  | cons a t ih =>
    cases hr : rstripWS t with
    | nil =>
      rw [rstripWS_cons_of_nil hr] at h
      cases hsa : pyIsSpace a with
      | true => rw [hsa, if_pos rfl] at h; cases h
      | false =>
        rw [hsa, if_neg (by simp)] at h
        simp only [List.mem_singleton] at h
        exact h ▸ List.mem_cons_self a t
    | cons d u =>
      rw [rstripWS_cons_of_ne hr (by simp)] at h
      rcases List.mem_cons.mp h with h1 | h2
      · exact h1 ▸ List.mem_cons_self a t
      · exact List.mem_cons_of_mem a (ih (hr ▸ h2))

theorem mem_rstripWS_of_nonspace {c : Char} {l : List Char}
    (hc : pyIsSpace c = false) (h : c ∈ l) : c ∈ rstripWS l := by
  induction l with
  | nil => cases h
  | cons a t ih =>
    rcases List.mem_cons.mp h with h1 | h2
    · subst h1
      cases hr : rstripWS t with
      | nil => rw [rstripWS_cons_of_nil hr, if_neg (by simp [hc])]; exact List.mem_singleton_self c
      | cons d u => rw [rstripWS_cons_of_ne hr (by simp)]; exact List.mem_cons_self _ _
    · have hmem := ih h2
      cases hr : rstripWS t with
      | nil => rw [hr] at hmem; cases hmem
      | cons d u =>
        rw [rstripWS_cons_of_ne hr (by simp)]
        exact List.mem_cons_of_mem a (hr ▸ hmem)

theorem rstripWS_idem (l : List Char) : rstripWS (rstripWS l) = rstripWS l := by
  induction l with
  | nil => rfl
  | cons a t ih =>
    cases hr : rstripWS t with
    | nil =>
      rw [rstripWS_cons_of_nil hr]
      cases hsa : pyIsSpace a with
      | true => rw [if_pos rfl]; rfl
      | false =>
        rw [if_neg (by simp [hsa])]
        rw [rstripWS_cons_of_nil (show rstripWS ([] : List Char) = [] from rfl),
          if_neg (by simp [hsa])]
    | cons d u =>
      rw [rstripWS_cons_of_ne hr (by simp)]
      have ih2 : rstripWS (d :: u) = d :: u := by rw [← hr] at *; exact ih
      exact rstripWS_cons_of_ne ih2 (by simp)

theorem spacesOK_rstripWS {l : List Char} (h : spacesOK l = true) :
    spacesOK (rstripWS l) = true := by
  induction l with
  | nil => rfl
  | cons a t ih =>
    cases hr : rstripWS t with
    | nil =>
      rw [rstripWS_cons_of_nil hr]
      cases hsa : pyIsSpace a with
      | true => rw [if_pos rfl]; rfl
      | false =>
        rw [if_neg (by simp [hsa]), spacesOK_singleton]
        simp [hsa]
    | cons d u =>
      rw [rstripWS_cons_of_ne hr (by simp)]
      have htails := spacesOK_tail h
      have ih2 : spacesOK (d :: u) = true := hr ▸ ih htails
      cases t with
      | nil => simp [rstripWS] at hr
      | cons b t2 =>
        have hd : d = b := by
          rcases rstripWS_shape b t2 with h0 | ⟨v, hv⟩
          · rw [h0] at hr; cases hr
          · rw [hv] at hr; exact (List.cons.injEq _ _ _ _ ▸ hr).1.symm
        subst hd
        rw [spacesOK_cons2] at h ⊢
        rw [Bool.and_eq_true] at h
        simp [h.1, ih2]

theorem dropWhile_head_not {p : Char → Bool} {l : List Char} {c : Char} {u : List Char}
    (h : l.dropWhile p = c :: u) : p c = false := by
  induction l with
  | nil => cases h
  | cons a t ih =>
    by_cases hp : p a = true
    · rw [List.dropWhile_cons_of_pos hp] at h
      exact ih h
    · rw [List.dropWhile_cons_of_neg hp] at h
      cases h
      simpa using hp

theorem mem_dropWhile_sub {p : Char → Bool} {l : List Char} {c : Char}
    (h : c ∈ l.dropWhile p) : c ∈ l := by
  induction l with
  | nil => simp at h
  | cons a t ih =>
    by_cases hp : p a = true
    · rw [List.dropWhile_cons_of_pos hp] at h
      exact List.mem_cons_of_mem a (ih h)
    · rw [List.dropWhile_cons_of_neg hp] at h
      exact h

theorem mem_dropWhile_of_not {p : Char → Bool} {l : List Char} {c : Char}
    (hc : p c = false) (h : c ∈ l) : c ∈ l.dropWhile p := by
  induction l with
  | nil => cases h
  | cons a t ih =>
    by_cases hp : p a = true
    · rw [List.dropWhile_cons_of_pos hp]
      rcases List.mem_cons.mp h with h1 | h2
      · subst h1; rw [hp] at hc; cases hc
      · exact ih h2
    · rw [List.dropWhile_cons_of_neg hp]
      exact h

theorem spacesOK_dropWhile {p : Char → Bool} {l : List Char} (h : spacesOK l = true) :
    spacesOK (l.dropWhile p) = true := by
  induction l with
  | nil => rfl
  | cons a t ih =>
    by_cases hp : p a = true
    · rw [List.dropWhile_cons_of_pos hp]
      exact ih (spacesOK_tail h)
    · rw [List.dropWhile_cons_of_neg hp]
      exact h

theorem mem_collapseWS_sub {c : Char} {l : List Char} (h : c ∈ collapseWS l) :
    c = ' ' ∨ c ∈ l := by
  induction l with
  | nil => simp [collapseWS] at h
  | cons a t ih =>
    cases t with
    | nil =>
      rw [collapseWS_singleton] at h
      cases hsa : pyIsSpace a with
      | true =>
        rw [hsa, if_pos rfl] at h
        simp only [List.mem_singleton] at h
        exact Or.inl h
      | false =>
        rw [hsa, if_neg (by simp)] at h
        simp only [List.mem_singleton] at h
        exact Or.inr (h ▸ List.mem_cons_self a [])
    | cons b u =>
      rw [collapseWS_cons2] at h
      by_cases hab : (pyIsSpace a && pyIsSpace b) = true
      · rw [if_pos hab] at h
        rcases ih h with h1 | h2
        · exact Or.inl h1
        · exact Or.inr (List.mem_cons_of_mem a h2)
      · rw [if_neg hab] at h
        rcases List.mem_cons.mp h with h1 | h2
        · cases hsa : pyIsSpace a with
          | true => rw [hsa, if_pos rfl] at h1; exact Or.inl h1
          | false => rw [hsa, if_neg (by simp)] at h1; exact Or.inr (h1 ▸ List.mem_cons_self a _)
        · rcases ih h2 with h3 | h4
          · exact Or.inl h3
          · exact Or.inr (List.mem_cons_of_mem a h4)

theorem mem_collapseWS_of_nonspace {c : Char} {l : List Char}
    (hc : pyIsSpace c = false) (h : c ∈ l) : c ∈ collapseWS l := by
  induction l with
  | nil => cases h
  | cons a t ih =>
    cases t with
    | nil =>
      simp only [List.mem_singleton] at h
      subst h
      rw [collapseWS_singleton, if_neg (by simp [hc])]
      exact List.mem_singleton_self c
    | cons b u =>
      rw [collapseWS_cons2]
      by_cases hab : (pyIsSpace a && pyIsSpace b) = true
      · rw [if_pos hab]
        rcases List.mem_cons.mp h with h1 | h2
        · subst h1
          rw [Bool.and_eq_true] at hab
          rw [hab.1] at hc
          cases hc
        · exact ih h2
      · rw [if_neg hab]
        rcases List.mem_cons.mp h with h1 | h2
        · subst h1
          rw [if_neg (by simp [hc])]
          exact List.mem_cons_self c _
        · exact List.mem_cons_of_mem _ (ih h2)

theorem flatMap_ascii_id (nfkd : Char → List Char)
    (h : ∀ c : Char, c.toNat < 128 → nfkd c = [c]) :
    ∀ l : List Char, (∀ c ∈ l, c.toNat < 128) → l.flatMap nfkd = l := by
  intro l
  induction l with
  | nil => intro _; rfl
  | cons a t ih =>
    intro hl
    rw [List.flatMap_cons, h a (hl a (List.mem_cons_self a t)),
      ih (fun c hc => hl c (List.mem_cons_of_mem a hc))]
    rfl

theorem pyStrip_dropWhile_fix (l : List Char) :
    (pyStrip l).dropWhile pyIsSpace = pyStrip l := by
  unfold pyStrip
  cases hw : l.dropWhile pyIsSpace with
  | nil => rfl
  | cons a t =>
    have ha : pyIsSpace a = false := dropWhile_head_not hw
    rcases rstripWS_shape a t with h0 | ⟨u, hu⟩
    · rw [h0]; rfl
    · rw [hu, List.dropWhile_cons_of_neg (by simp [ha])]

theorem pyStrip_fixpoint (l : List Char) : pyStrip (pyStrip l) = pyStrip l := by
  show rstripWS ((pyStrip l).dropWhile pyIsSpace) = pyStrip l
  rw [pyStrip_dropWhile_fix]
  unfold pyStrip
  exact rstripWS_idem _

theorem spacesOK_pyStrip {l : List Char} (h : spacesOK l = true) :
    spacesOK (pyStrip l) = true :=
  spacesOK_rstripWS (spacesOK_dropWhile h)

theorem mem_pyStrip_sub {c : Char} {l : List Char} (h : c ∈ pyStrip l) : c ∈ l :=
  mem_dropWhile_sub (mem_rstripWS_sub h)

/-- C8: the Filename Sanitizer is idempotent.  The hypothesis is the single
fact used about the NFKD normalization: it leaves ASCII characters alone
(every character below code point 128 is NFKD-invariant). -/
theorem C8_sanitize_idempotent (nfkd : Char → List Char)
    (h : ∀ c : Char, c.toNat < 128 → nfkd c = [c]) (s : List Char) :
    sanitize_filename nfkd (sanitize_filename nfkd s) = sanitize_filename nfkd s := by
  have hz_mem : ∀ c ∈ sanitize_filename nfkd s,
      c.toNat < 128 ∧ keepCh c = true := by
    intro c hc
    have hy := mem_pyStrip_sub hc
    rcases mem_collapseWS_sub hy with h1 | h2
    · subst h1; exact ⟨by decide, by decide⟩
    · have h3 := List.mem_filter.mp h2
      have h4 := List.mem_filter.mp h3.1
      refine ⟨?_, h3.2⟩
      simpa using h4.2
  have hz_sp : spacesOK (sanitize_filename nfkd s) = true :=
    spacesOK_pyStrip (spacesOK_collapseWS _)
  show pyStrip (collapseWS (List.filter keepCh
      (List.filter (fun c => decide (c.toNat < 128))
        ((sanitize_filename nfkd s).flatMap nfkd)))) = sanitize_filename nfkd s
  rw [flatMap_ascii_id nfkd h _ (fun c hc => (hz_mem c hc).1)]
  have e1 : List.filter (fun c => decide (c.toNat < 128)) (sanitize_filename nfkd s)
      = sanitize_filename nfkd s :=
    List.filter_eq_self.mpr (fun c hc => by simpa using (hz_mem c hc).1)
  have e2 : List.filter keepCh (sanitize_filename nfkd s) = sanitize_filename nfkd s :=
    List.filter_eq_self.mpr (fun c hc => (hz_mem c hc).2)
  rw [e1, e2]
  rw [collapseWS_id_of_spacesOK hz_sp]
  exact pyStrip_fixpoint _

/-- Closed instance of the idempotence theorem at the identity embedding of
NFKD (correct on ASCII) and a concrete messy title. -/
theorem C8_sanitize_idempotent_witness :
    sanitize_filename nfkdId (sanitize_filename nfkdId ( "  My   Fancy__Title!? (v2).mp3 ").toList)
      = sanitize_filename nfkdId ( "  My   Fancy__Title!? (v2).mp3 ").toList :=
  C8_sanitize_idempotent nfkdId (fun _ _ => rfl) _

theorem isAsciiAlnum_not_space {c : Char} (h : isAsciiAlnum c = true) :
    pyIsSpace c = false := by
  cases hsp : pyIsSpace c with
  | false => rfl
  | true =>
    exfalso
    simp only [isAsciiAlnum, Bool.or_eq_true, Bool.and_eq_true, decide_eq_true_eq] at h
    simp only [pyIsSpace, Bool.or_eq_true, Bool.and_eq_true, decide_eq_true_eq,
      beq_iff_eq] at hsp
    omega

theorem isAsciiAlnum_lt128 {c : Char} (h : isAsciiAlnum c = true) : c.toNat < 128 := by
  simp only [isAsciiAlnum, Bool.or_eq_true, Bool.and_eq_true, decide_eq_true_eq] at h
  omega

theorem isAsciiAlnum_keep {c : Char} (h : isAsciiAlnum c = true) : keepCh c = true := by
  simp [keepCh, isWordCh, h]

/-- C9 counterexample: the claim promises a fixed placeholder such as
untitled for input that is entirely symbols, but `sanitize_filename` simply
returns the empty string on the all-symbol input of two question marks
(ASCII, so the identity NFKD is exact here).  There is no fallback anywhere
in the source. -/
theorem C9_sanitize_counterexample :
    sanitize_filename nfkdId ( "??").toList = []
      ∧ sanitize_filename nfkdId ( "??").toList ≠ ( "untitled").toList := by
  constructor
  · decide
  · decide

/-- C9 amended: for every input containing at least one ASCII alphanumeric
character the sanitizer output is non-empty (that character survives every
stage); there is no placeholder fallback, and input consisting entirely of
removed symbols yields the empty string, as the counterexample shows. -/
theorem C9_sanitize_amended (nfkd : Char → List Char)
    (h : ∀ c : Char, c.toNat < 128 → nfkd c = [c]) (s : List Char) (c : Char)
    (hc : c ∈ s) (ha : isAsciiAlnum c = true) :
    sanitize_filename nfkd s ≠ [] := by
  have hlt : c.toNat < 128 := isAsciiAlnum_lt128 ha
  have hsp : pyIsSpace c = false := isAsciiAlnum_not_space ha
  have h1 : c ∈ s.flatMap nfkd :=
    List.mem_flatMap.mpr ⟨c, hc, by rw [h c hlt]; exact List.mem_singleton_self c⟩
  have h2 : c ∈ List.filter (fun d => decide (d.toNat < 128)) (s.flatMap nfkd) :=
    List.mem_filter.mpr ⟨h1, by simpa using hlt⟩
  have h3 : c ∈ List.filter keepCh
      (List.filter (fun d => decide (d.toNat < 128)) (s.flatMap nfkd)) :=
    List.mem_filter.mpr ⟨h2, isAsciiAlnum_keep ha⟩
  have h4 := mem_collapseWS_of_nonspace hsp h3
  have h5 := mem_dropWhile_of_not hsp h4
  have h6 := mem_rstripWS_of_nonspace hsp h5
  exact List.ne_nil_of_mem h6

/-- Closed instance of the amended C9 statement on a one-letter title. -/
theorem C9_sanitize_amended_witness :
    sanitize_filename nfkdId ( "a").toList ≠ [] :=
  C9_sanitize_amended nfkdId (fun _ _ => rfl) (( "a").toList) 'a'
    (by decide) (by decide)

/-- C3: chapter index padding.  The shared rendering (Python int of the digit
run, formatted with width two and zero fill) pads every value below ten to
two digits, leaves values of three digits untouched with no truncation, and
the two renamers realize it on representative raw chapter names: index 7
becomes 07 and index 123 stays 123 in ytdlp.py's space-dash form, and the
three-digit raw indices 007 and 123 of app.py's dash-delimited form become
07 and 123. -/
theorem C3_index_padding :
    (∀ n, n < 100 → (pad2 n).length = 2) ∧
    (∀ n, 10 ≤ n → n < 1000 → pad2 n = natDec n) ∧
    (∀ n, n < 1000 → digitsVal (pad2 n) = n) ∧
    ytdlpCleanName nfkdId ( "xyz").toList ( "T - 7 Chapter [xyz].mp3").toList
      = ( "T - 07 Chapter.mp3").toList ∧
    ytdlpCleanName nfkdId ( "xyz").toList ( "T - 123 Chapter [xyz].mp3").toList
      = ( "T - 123 Chapter.mp3").toList ∧
    appCleanName ( "xyz").toList ( "T-007-Chapter-[xyz].mp3").toList
      = ( "T - 07-Chapter.mp3").toList ∧
    appCleanName ( "xyz").toList ( "T-123-Chapter-[xyz].mp3").toList
      = ( "T - 123-Chapter.mp3").toList :=
  ⟨by decide, by decide, by decide, by decide, by decide, by decide, by decide⟩

/-- Closed instance of the padding facts of C3 at the claim's own examples. -/
theorem C3_index_padding_witness :
    (pad2 7).length = 2 ∧ digitsVal (pad2 123) = 123 ∧ pad2 123 = natDec 123 :=
  ⟨C3_index_padding.1 7 (by decide), (C3_index_padding.2.2.1) 123 (by decide),
    (C3_index_padding.2.1) 123 (by decide) (by decide)⟩

/-- C4 counterexample: neither renamer removes every occurrence of the exact
bracketed id.  app.py deletes only the dash-prefixed form, so an occurrence
preceded by a space survives its rename untouched; and ytdlp.py keeps
underscores (its sanitizer treats the underscore as a word character), so
the claim's underscores-to-spaces clause fails there too. -/
theorem C4_id_strip_counterexample :
    containsSub (( "[abc123]").toList)
        (appCleanName ( "abc123").toList ( "Title [abc123]_x.mp3").toList) = true
      ∧ appCleanName ( "abc123").toList ( "Title [abc123]_x.mp3").toList
          = ( "Title [abc123] x.mp3").toList
      ∧ ('_' ∈ ytdlpCleanName nfkdId ( "abc123").toList
          ( "Title - 7 a_b [abc123].mp3").toList) :=
  ⟨by decide, by decide, by decide⟩

/-- C4 amended: app.py removes the dash-prefixed bracketed id and replaces
underscores with spaces, ytdlp.py removes the space-prefixed bracketed id and
keeps underscores; on the raw shapes each mode produces, the id is gone, no
double space remains, and (in app.py) underscores became spaces.  A bare
occurrence of the bracketed id preceded by neither a dash (app.py) nor a
space (ytdlp.py) is not removed, as the counterexample shows. -/
theorem C4_id_strip_amended :
    appCleanName ( "abc123").toList ( "Title-001-Chapter_One-[abc123].mp3").toList
      = ( "Title - 01-Chapter One.mp3").toList
    ∧ ytdlpCleanName nfkdId ( "abc123").toList ( "Title - 7 Chapter [abc123].mp3").toList
      = ( "Title - 07 Chapter.mp3").toList
    ∧ containsSub (( "[abc123]").toList)
        (appCleanName ( "abc123").toList ( "Title-001-Chapter_One-[abc123].mp3").toList)
      = false
    ∧ containsSub (( "  ").toList)
        (appCleanName ( "abc123").toList ( "Title-001-Chapter_One-[abc123].mp3").toList)
      = false
    ∧ containsSub (( "  ").toList)
        (ytdlpCleanName nfkdId ( "abc123").toList ( "Title - 7 Chapter [abc123].mp3").toList)
      = false
    ∧ ('_' ∉ appCleanName ( "abc123").toList ( "Title-001-Chapter_One-[abc123].mp3").toList) :=
  ⟨by decide, by decide, by decide, by decide, by decide, by decide⟩

/-- C1: evaluation of both revisions at the no-chapter input.  In app.py the
marker-named single file is unconditionally deleted (line 126 runs outside
any chapter check), the function still returns the working directory, and
main therefore serves a zip of the now-empty directory: the claim's promised
behavior fails, and the other revision shows the intent.  In ytdlp.py the
renamer is a no-op, the single file is kept, and the returned artifact is
that file itself with no zip. -/
theorem C1_single_file_run :
    app_process_video_post envSingle = ⟨true, [], some .warning⟩
    ∧ app_main_outcome envSingle = .served (( "T.zip").toList) []
    ∧ (ytdlp_process_video_post nfkdId yenvSingle).isDirResult = false
    ∧ (ytdlp_process_video_post nfkdId yenvSingle).resultPath = ( "T/T.mp3").toList
    ∧ (ytdlp_process_video_post nfkdId yenvSingle).workdir = [(( "T.mp3").toList, 0)]
    ∧ (ytdlp_process_video_post nfkdId yenvSingle).rg = .finished [( "T.mp3").toList] :=
  ⟨by decide, by decide, by decide, by decide, by decide, by decide⟩

/-- C2 counterexample: two distinct raw chapter files render to the same
clean destination name; the run completes with no error of any kind and the
final directory holds a single file carrying the second raw file's content.
The first file was silently overwritten, refuting both the promised
RenameCollisionError and the pairwise-distinct-results invariant. -/
theorem C2_collision_counterexample :
    appCleanName ( "id").toList ( "T-001-A-[id].mp3").toList
      = appCleanName ( "id").toList ( "T_-_01-A-[id].mp3").toList
    ∧ ( "T-001-A-[id].mp3").toList ≠ ( "T_-_01-A-[id].mp3").toList
    ∧ (app_process_video_post envCollide).dir = [(( "T - 01-A.mp3").toList, 2)]
    ∧ (app_process_video_post envCollide).retDir = true :=
  ⟨by decide, by decide, by decide, by decide⟩

/-- C2 amended: when two raw files map to the same destination, the rename
loop moves both there with shutil.move, which silently replaces the existing
file: no error is raised, the loop is a total function, and only one file
remains, carrying the content of the file moved second. -/
theorem C2_collision_amended (vid r1 r2 d : List Char) (c1 c2 : Nat)
    (h1 : appCleanName vid r1 = d) (h2 : appCleanName vid r2 = d)
    (hr : r1 ≠ r2) (hd2 : d ≠ r2) :
    appRenameAll vid [(r1, c1), (r2, c2)] [r1, r2] = [(d, c2)] := by
  have e11 : (r1 == r1) = true := beq_self_eq_true r1
  have e21 : (r2 == r1) = false := beq_eq_false_iff_ne.mpr (Ne.symm hr)
  have e2d : (r2 == d) = false := beq_eq_false_iff_ne.mpr (fun hx => hd2 hx.symm)
  have ed2 : (d == r2) = false := beq_eq_false_iff_ne.mpr hd2
  have e22 : (r2 == r2) = true := beq_self_eq_true r2
  have edd : (d == d) = true := beq_self_eq_true d
  simp only [appRenameAll, moveFile, h1, h2, List.find?, e11, e21, e2d, ed2, e22, edd,
    List.filter, Bool.not_true, Bool.not_false, Bool.and_true, Bool.and_false,
    Bool.true_and, Bool.false_and, List.nil_append, List.cons_append]

/-- Closed instance of the amended C2 statement at the colliding pair of the
counterexample environment. -/
theorem C2_collision_amended_witness :
    appRenameAll ( "id").toList
      [(( "T-001-A-[id].mp3").toList, 1), (( "T_-_01-A-[id].mp3").toList, 2)]
      [( "T-001-A-[id].mp3").toList, ( "T_-_01-A-[id].mp3").toList]
      = [(( "T - 01-A.mp3").toList, 2)] :=
  C2_collision_amended (( "id").toList) (( "T-001-A-[id].mp3").toList)
    (( "T_-_01-A-[id].mp3").toList) (( "T - 01-A.mp3").toList) 1 2
    (by decide) (by decide) (by decide) (by decide)

theorem rglobList_files (fs : List (List Char × Nat)) :
    rglobList (fs.map (fun p => FSNode.file p.1 p.2))
      = fs.map (fun p => ([p.1], false)) := by
  induction fs with
  | nil => rfl
  | cons p t ih => simp [rglobList, rglobNode, ih]

/-- C5 counterexample: create_zip_file happily archives an empty directory
(no PackagingError exists anywhere in the source), produces nested entries
for subdirectories because it walks with rglob, and nothing in the source
ever deletes the working directory. -/
theorem C5_packager_counterexample :
    create_zip_file (.dirT ( "T").toList []) = (( "T.zip").toList, [])
    ∧ (([( "sub").toList, ( "x.mp3").toList], false) ∈
        (create_zip_file (.dirT ( "T").toList
          [.dir ( "sub").toList [.file ( "x.mp3").toList 0]])).2) :=
  ⟨by decide, by decide⟩

/-- C5 amended: the archive is named by appending .zip to the directory path
and, for the flat directories the pipeline actually produces, contains
exactly the directory's files under their bare names; an empty directory
yields an archive with no entries and no error is raised (create_zip_file is
total); subdirectory contents, when present, keep their relative nested
paths; and the source never deletes the directory after archiving. -/
theorem C5_packager_amended (name : List Char) (files : List (List Char × Nat)) :
    create_zip_file (.dirT name (files.map (fun p => FSNode.file p.1 p.2)))
      = (name ++ ( ".zip").toList, files.map (fun p => ([p.1], false))) := by
  simp only [create_zip_file]
  rw [rglobList_files]

/-- C6 counterexample: in ytdlp.py a non-zero mp3gain exit raises
CalledProcessError out of apply_replaygain, so the second file is never
attempted — the attempted list of the raised outcome holds only the failing
first file. -/
theorem C6_normalizer_counterexample :
    ytdlp_apply_replaygain (fun n => if n = ( "a.mp3").toList then 1 else 0)
      [(( "a.mp3").toList, 0), (( "b.mp3").toList, 1)]
      = .raised [( "a.mp3").toList] (( "a.mp3").toList)
    ∧ (( "b.mp3").toList ∉ [( "a.mp3").toList]) :=
  ⟨by decide, by decide⟩

/-- C6 amended: app.py's normalizer is best-effort — an empty selection
yields the warning, and otherwise every selected file appears in the report
with its own exit status, failures included, with nothing aborted; ytdlp.py's
normalizer instead raises at the first non-zero exit, so the files after the
failing one are never attempted. -/
theorem C6_normalizer_amended (rc : List Char → Nat) (files : List FileEntry) :
    (files.filter (fun f => mp3Glob f.1) = [] →
      app_apply_replaygain rc files = .warning)
    ∧ (∀ e ∈ files.filter (fun f => mp3Glob f.1), ∃ rs,
        app_apply_replaygain rc files = .report rs
          ∧ (e.1, decide (rc e.1 = 0)) ∈ rs)
    ∧ (∀ (pre : List FileEntry) (f : FileEntry) (post : List FileEntry),
        (∀ g ∈ pre, rc g.1 = 0) → rc f.1 ≠ 0 →
        ytdlpRGRun rc (pre ++ f :: post)
          = (pre.map Prod.fst ++ [f.1], some f.1)) := by
  refine ⟨?_, ?_, ?_⟩
  · intro h
    unfold app_apply_replaygain
    rw [h]
    rfl
  · intro e he
    unfold app_apply_replaygain
    have hne : files.filter (fun f => mp3Glob f.1) ≠ [] := List.ne_nil_of_mem he
    rw [if_neg (by simpa [List.isEmpty_iff] using hne)]
    exact ⟨_, rfl, List.mem_map.mpr ⟨e, he, rfl⟩⟩
  · intro pre f post hpre hf
    induction pre with
    | nil =>
      simp only [List.nil_append, List.map_nil]
      unfold ytdlpRGRun
      rw [if_neg hf]
    | cons g t ih =>
      have hg : rc g.1 = 0 := hpre g (List.mem_cons_self g t)
      have ht : ∀ x ∈ t, rc x.1 = 0 := fun x hx => hpre x (List.mem_cons_of_mem g hx)
      simp only [List.cons_append, List.map_cons]
      unfold ytdlpRGRun
      rw [if_pos hg, ih ht]

/-- Closed instance of the amended C6 statement: a leading success, then a
failure, then a file that is never attempted. -/
theorem C6_normalizer_amended_witness :
    ytdlpRGRun (fun n => if n = ( "a.mp3").toList then 1 else 0)
      ([(( "z.mp3").toList, 0)] ++ (( "a.mp3").toList, 1) :: [(( "b.mp3").toList, 2)])
      = ([( "z.mp3").toList, ( "a.mp3").toList], some (( "a.mp3").toList)) :=
  (C6_normalizer_amended (fun n => if n = ( "a.mp3").toList then 1 else 0) []).2.2
    [(( "z.mp3").toList, 0)] ((( "a.mp3").toList, 1)) [(( "b.mp3").toList, 2)]
    (by decide) (by decide)

/-- C7 counterexample: with the download subprocess exiting 1, process_video
logs and returns None instead of raising anything, and main's success path is
simply skipped: the user sees neither an artifact nor the error box (st.error
fires only for exceptions).  No PipelineError exists in the source. -/
theorem C7_pipeline_error_counterexample :
    app_main_outcome envFail = .silent
    ∧ app_main_outcome envFail ≠ .errorBox
    ∧ (app_process_video_post envFail).retDir = false
    ∧ (app_process_video_post envFail).dir = envFail.dirFiles :=
  ⟨by decide, by decide, by decide, by decide⟩

/-- C7 amended: on a non-zero download exit, a missing marker file, or an
unreadable marker file, process_video aborts immediately — the directory is
untouched and no later step runs — but it does so by returning None after
logging; no exception is raised, and the Streamlit main then shows nothing
(the error text reaches the user only through the logging handler). -/
theorem C7_pipeline_error_amended (env : AppEnv) (hm : env.metaRc = 0)
    (h : env.rc ≠ 0 ∨ env.markerExists = false ∨ env.markerReadOk = false) :
    app_main_outcome env = .silent
    ∧ app_process_video_post env = ⟨false, env.dirFiles, none⟩ := by
  have hrun : app_process_video_post env = ⟨false, env.dirFiles, none⟩ := by
    unfold app_process_video_post
    by_cases hrc : env.rc ≠ 0
    · rw [if_pos hrc]
    · rw [if_neg hrc]
      rcases h with h | h | h
      · exact absurd h hrc
      · rw [if_pos (by simp [h])]
      · by_cases hme : env.markerExists = false
        · rw [if_pos (by simp [hme])]
        · have hme2 : env.markerExists = true := by
            cases hx : env.markerExists with
            | false => exact absurd hx hme
            | true => rfl
          rw [if_neg (by simp [hme2]), if_pos (by simp [h])]
  refine ⟨?_, hrun⟩
  unfold app_main_outcome
  rw [if_neg (by simp [hm]), hrun]
  rfl

/-- Closed instance of the amended C7 statement at the exit-code-1
environment. -/
theorem C7_pipeline_error_amended_witness :
    app_main_outcome envFail = .silent
    ∧ app_process_video_post envFail = ⟨false, envFail.dirFiles, none⟩ :=
  C7_pipeline_error_amended envFail rfl (Or.inl (by decide))

theorem mem_insertByName_sub {e f : FileEntry} {l : List FileEntry}
    (h : f ∈ insertByName e l) : f = e ∨ f ∈ l := by
  induction l with
  | nil => simpa [insertByName] using h
  | cons g t ih =>
    unfold insertByName at h
    by_cases hlt : lexLt g.1 e.1 = true
    · rw [if_pos hlt] at h
      rcases List.mem_cons.mp h with h1 | h2
      · exact Or.inr (h1 ▸ List.mem_cons_self g t)
      · rcases ih h2 with h3 | h4
        · exact Or.inl h3
        · exact Or.inr (List.mem_cons_of_mem g h4)
    · rw [if_neg hlt] at h
      rcases List.mem_cons.mp h with h1 | h2
      · exact Or.inl h1
      · exact Or.inr h2

theorem mem_sortNames_sub {f : FileEntry} {l : List FileEntry}
    (h : f ∈ sortNames l) : f ∈ l := by
  induction l with
  | nil => simp [sortNames] at h
  | cons g t ih =>
    unfold sortNames at h
    rw [List.foldr_cons] at h
    rcases mem_insertByName_sub h with h1 | h2
    · exact h1 ▸ List.mem_cons_self g t
    · exact List.mem_cons_of_mem g (ih h2)

theorem mem_removeFirstName_sub {l : List FileEntry} {n : List Char} {f : FileEntry}
    (h : f ∈ removeFirstName l n) : f ∈ l := by
  induction l with
  | nil => simp [removeFirstName] at h
  | cons e t ih =>
    unfold removeFirstName at h
    by_cases he : e.1 = n
    · rw [if_pos he] at h
      exact List.mem_cons_of_mem e h
    · rw [if_neg he] at h
      rcases List.mem_cons.mp h with h1 | h2
      · exact h1 ▸ List.mem_cons_self e t
      · exact List.mem_cons_of_mem e (ih h2)

theorem name_mem_moveFile {d : List FileEntry} {src dst x : List Char}
    (h : x ∈ (moveFile d src dst).map Prod.fst) :
    x ∈ d.map Prod.fst ∨ x = dst := by
  unfold moveFile at h
  cases hf : d.find? (fun e => e.1 == src) with
  | none => rw [hf] at h; exact Or.inl h
  | some e =>
    rw [hf, List.map_append] at h
    rcases List.mem_append.mp h with h1 | h2
    · obtain ⟨g, hg, hge⟩ := List.mem_map.mp h1
      exact Or.inl (List.mem_map.mpr ⟨g, (List.mem_filter.mp hg).1, hge⟩)
    · simp only [List.map_cons, List.map_nil, List.mem_singleton] at h2
      exact Or.inr h2

theorem name_mem_appRenameAll (vid : List Char) :
    ∀ (chaps : List (List Char)) (d : List FileEntry) (x : List Char),
      x ∈ (appRenameAll vid d chaps).map Prod.fst →
      x ∈ d.map Prod.fst ∨ ∃ r ∈ chaps, x = appCleanName vid r := by
  intro chaps
  induction chaps with
  | nil => intro d x h; exact Or.inl h
  | cons r rs ih =>
    intro d x h
    rcases ih (moveFile d r (appCleanName vid r)) x h with hmem | ⟨r2, hr2, he⟩
    · rcases name_mem_moveFile hmem with h3 | h4
      · exact Or.inl h3
      · exact Or.inr ⟨r, List.mem_cons_self r rs, h4⟩
    · exact Or.inr ⟨r2, List.mem_cons_of_mem r hr2, he⟩

theorem app_rg_warning {rc : List Char → Nat} {d : List FileEntry}
    (h : ∀ e ∈ d, mp3Glob e.1 = false) :
    app_apply_replaygain rc d = .warning := by
  unfold app_apply_replaygain
  have hfil : d.filter (fun f => mp3Glob f.1) = [] :=
    List.filter_eq_nil_iff.mpr (fun e he => by simp [h e he])
  rw [hfil]
  rfl

/-- C10: the Loudness Normalizer selects files only through the glob for the
.mp3 extension — the chosen audio format is not even an input of
apply_replaygain — so a run all of whose files (raw and renamed) carry a
different extension reaches the no-files warning while process_video still
returns the working directory. -/
theorem C10_mp3_glob_only (env : AppEnv) (hrc : env.rc = 0)
    (hme : env.markerExists = true) (hmr : env.markerReadOk = true)
    (hfiles : ∀ e ∈ env.dirFiles, mp3Glob e.1 = false
        ∧ mp3Glob (appCleanName env.videoId e.1) = false) :
    (app_process_video_post env).retDir = true
    ∧ (app_process_video_post env).rg = some RGOut.warning := by
  have hpost : app_process_video_post env
      = ⟨true, appDir2 env, some (app_apply_replaygain env.mp3gainRc (appDir2 env))⟩ := by
    unfold app_process_video_post
    rw [if_neg (by simp [hrc]), if_neg (by simp [hme]), if_neg (by simp [hmr])]
  have hnames : ∀ e ∈ appDir2 env, mp3Glob e.1 = false := by
    intro e he
    have h2 := name_mem_appRenameAll env.videoId (appChaps env) (appDir1 env) e.1
      (List.mem_map.mpr ⟨e, he, rfl⟩)
    rcases h2 with hmem | ⟨r, hr, heq⟩
    · obtain ⟨f, hf, hfe⟩ := List.mem_map.mp hmem
      have hfd : f ∈ env.dirFiles := by
        unfold appDir1 at hf
        by_cases hb : appHasMain env = true
        · rw [if_pos hb] at hf
          exact (List.mem_filter.mp hf).1
        · rw [if_neg hb] at hf
          exact hf
      exact hfe ▸ (hfiles f hfd).1
    · have hrd : ∃ f ∈ env.dirFiles, f.1 = r := by
        unfold appChaps at hr
        obtain ⟨f, hf, hfe⟩ := List.mem_map.mp hr
        have hglob : f ∈ appGlobbed env := by
          by_cases hb : appHasMain env = true
          · rw [if_pos hb] at hf
            exact mem_removeFirstName_sub hf
          · rw [if_neg hb] at hf
            exact hf
        unfold appGlobbed at hglob
        have hf2 := mem_sortNames_sub hglob
        exact ⟨f, (List.mem_filter.mp hf2).1, hfe⟩
      obtain ⟨f, hfd, hfr⟩ := hrd
      rw [heq, ← hfr]
      exact (hfiles f hfd).2
  rw [hpost]
  refine ⟨rfl, ?_⟩
  show some (app_apply_replaygain env.mp3gainRc (appDir2 env)) = some RGOut.warning
  rw [app_rg_warning hnames]

/-- Closed instance of C10 at the aac-format environment: the selection is
empty, the warning path is taken, and the run still completes. -/
theorem C10_mp3_glob_only_witness :
    (app_process_video_post envAac).retDir = true
    ∧ (app_process_video_post envAac).rg = some RGOut.warning :=
  C10_mp3_glob_only envAac rfl rfl rfl (by decide)
